import Mathlib

/-!
# Verification of the dominoes game engine

A shallow embedding of the core game logic of the `dominos-web-app`
repository (tile placement rules, state transitions, scoring, dealing,
the seeded shuffle, and the multiplayer room-joining operation),
together with theorems settling the specification claims about it.

Source functions embedded here:
* `src/utils/gameUtils.ts`: `canPlayTile`, `getPlayablePositions`,
  `orientTileForPlacement`, `playTile`, `calculateHandScore`,
  `calculateRoundScoring`, `isGameOver`, `getGameWinner`, `dealTiles`,
  `shuffleArray`.
* `src/contexts/GameContext.tsx`: `drawFromBoneyard`.
* `src/utils/multiplayerService.ts`: `joinRoom` together with its
  `localStorage`-backed helpers `loadRoomFromStorage`,
  `getActiveRooms`, `saveRoomToStorage`.

Conventions: JavaScript arrays become `List`s; `localStorage` becomes an
explicit store value threaded through the functions; out-of-bounds array
indexing (which would throw in JavaScript) is modelled with `getD` /
`headD` defaults, and every theorem that depends on an index carries the
validity hypothesis the program maintains (`currentPlayerIndex` is
always a valid index into `players`).
-/

namespace Dominos

/-- The `DominoTile` from `src/types/index.ts`: stable `id`, two pip values,
and the `isDouble` flag computed at creation time. -/
structure DominoTile where
  id : String
  leftDots : Nat
  rightDots : Nat
  isDouble : Bool
deriving DecidableEq, Repr

/-- A default tile, standing in for JavaScript `undefined` at
out-of-bounds accesses; all theorems restrict to the in-bounds states
the program maintains. -/
def defaultTile : DominoTile := ⟨"", 0, 0, false⟩

/-- The `Player` from `src/types/index.ts` (the `isComputer` and `avatar`
presentation fields are irrelevant to every embedded operation and
omitted). Scores are integers. -/
structure Player where
  id : String
  name : String
  hand : List DominoTile
  score : Int
deriving DecidableEq, Repr

/-- Default player for out-of-bounds accesses. -/
def defaultPlayer : Player := ⟨"", "", [], 0⟩

/-- The `gameStatus` field's value set. -/
inductive GameStatus where
  | waiting
  | playing
  | finished
deriving DecidableEq, Repr

/-- A board position, the `'left' | 'right'` union type. -/
inductive Position where
  | left
  | right
deriving DecidableEq, Repr

/-- The `GameState` from `src/types/index.ts`. -/
structure GameState where
  players : List Player
  currentPlayerIndex : Nat
  board : List DominoTile
  boneyard : List DominoTile
  gameStatus : GameStatus
  targetScore : Int
  round : Nat
  winner : Option Player
deriving DecidableEq, Repr

/-! ## Board/placement rules (`src/utils/gameUtils.ts`) -/

/-- The `canPlayTile(tile, board)`: true on an empty board, otherwise true
iff either pip value of the tile equals the left open end
(`board[0].leftDots`) or the right open end
(`board[board.length-1].rightDots`). -/
def canPlayTile (tile : DominoTile) (board : List DominoTile) : Bool :=
  if board.isEmpty then true
  else
    let leftEnd := (board.headD defaultTile).leftDots
    let rightEnd := (board.getLastD defaultTile).rightDots
    tile.leftDots == leftEnd || tile.rightDots == leftEnd ||
      tile.leftDots == rightEnd || tile.rightDots == rightEnd

/-- The `getPlayablePositions(tile, board)`: `['left']` on an empty board;
otherwise `'left'` is included when the tile touches the left open end
and `'right'` when it touches the right open end. -/
def getPlayablePositions (tile : DominoTile) (board : List DominoTile) :
    List Position :=
  if board.isEmpty then [Position.left]
  else
    let leftEnd := (board.headD defaultTile).leftDots
    let rightEnd := (board.getLastD defaultTile).rightDots
    (if tile.leftDots == leftEnd || tile.rightDots == leftEnd then
      [Position.left] else []) ++
    (if tile.leftDots == rightEnd || tile.rightDots == rightEnd then
      [Position.right] else [])

/-- The `orientTileForPlacement(tile, board, position)`: returns the tile
as-is on an empty board; for `'left'` flips the tile unless its
`rightDots` already equals the left open end; symmetrically for
`'right'`. A flip swaps the two pip values and keeps `id` and
`isDouble`. -/
def orientTileForPlacement (tile : DominoTile) (board : List DominoTile)
    (position : Position) : DominoTile :=
  if board.isEmpty then tile
  else
    match position with
    | Position.left =>
      let leftEnd := (board.headD defaultTile).leftDots
      if tile.rightDots == leftEnd then tile
      else if tile.leftDots == leftEnd then
        { tile with leftDots := tile.rightDots, rightDots := tile.leftDots }
      else tile
    | Position.right =>
      let rightEnd := (board.getLastD defaultTile).rightDots
      if tile.leftDots == rightEnd then tile
      else if tile.rightDots == rightEnd then
        { tile with leftDots := tile.rightDots, rightDots := tile.leftDots }
      else tile

/-! ## Chain connectivity

The board invariant from the data model: for every adjacent pair of
placed tiles, the right pips of the first equal the left pips of the
second. -/

/-- Decidable chain-connectivity predicate on a board. -/
def chainConnected : List DominoTile → Bool
  | [] => true
  | [_] => true
  | a :: b :: rest => (a.rightDots == b.leftDots) && chainConnected (b :: rest)

/-! ## State transitions (`src/utils/gameUtils.ts`) -/

/-- The current player of a state, `gameState.players[currentPlayerIndex]`. -/
def currentPlayer (s : GameState) : Player :=
  s.players.getD s.currentPlayerIndex defaultPlayer

/-- The `playTile(gameState, tileId, position)`: looks the tile up in the
current player's hand by id; returns the state unchanged if it is
absent, unplayable, or the requested position is not playable;
otherwise removes the tile from the hand, orients it, prepends or
appends it to the board, and advances the turn pointer modulo the
player count. -/
def playTile (s : GameState) (tileId : String) (position : Position) :
    GameState :=
  match (currentPlayer s).hand.find? (fun t => t.id == tileId) with
  | none => s
  | some tile =>
    if ¬ canPlayTile tile s.board then s
    else if position ∉ getPlayablePositions tile s.board then s
    else
      let newHand := (currentPlayer s).hand.filter (fun t => ¬ t.id == tileId)
      let orientedTile := orientTileForPlacement tile s.board position
      let newBoard :=
        match position with
        | Position.left => orientedTile :: s.board
        | Position.right => s.board ++ [orientedTile]
      let newPlayers := s.players.mapIdx (fun i p =>
        if i = s.currentPlayerIndex then { p with hand := newHand } else p)
      { s with
        players := newPlayers
        board := newBoard
        currentPlayerIndex := (s.currentPlayerIndex + 1) % s.players.length }

/-- The `calculateHandScore(hand)`: left fold summing `leftDots + rightDots`
over the hand, starting from 0. -/
def calculateHandScore (hand : List DominoTile) : Nat :=
  hand.foldl (fun total tile => total + tile.leftDots + tile.rightDots) 0

/-- The `calculateRoundScoring(gameState, roundWinner)`: maps over the
players, keeping the winner's score and adding each other player's hand
score to their cumulative score. -/
def calculateRoundScoring (s : GameState) (roundWinner : Player) :
    List Player :=
  s.players.map (fun p =>
    if p.id == roundWinner.id then p
    else { p with score := p.score + (calculateHandScore p.hand : Int) })

/-- The `isGameOver(gameState)`: some player's cumulative score has reached
or exceeded the target score. -/
def isGameOver (s : GameState) : Bool :=
  s.players.any (fun p => s.targetScore ≤ p.score)

/-- The `Math.min(...players.map(p => p.score))` over a player list
(meaningful only for non-empty lists, exactly as in the source where it
is guarded by a non-emptiness-implying `some`). -/
def minimumScore : List Player → Int
  | [] => 0
  | [p] => p.score
  | p :: q :: rest => min p.score (minimumScore (q :: rest))

/-- The `getGameWinner(gameState)`: `null` until some player reaches the
target score; afterwards the first player in list order whose score
equals the minimum score. -/
def getGameWinner (s : GameState) : Option Player :=
  if s.players.any (fun p => s.targetScore ≤ p.score) then
    s.players.find? (fun p => p.score == minimumScore s.players)
  else none

/-- The `playerHasPlayableTile(player, board)`. -/
def playerHasPlayableTile (player : Player) (board : List DominoTile) : Bool :=
  player.hand.any (fun tile => canPlayTile tile board)

/-! ## Deal and shuffle (`src/utils/gameUtils.ts`) -/

/-- The `dealTiles(tiles, playerCount)`: 7 tiles per hand for two players,
6 otherwise; hand `i` is `tiles.slice(i*tpp, (i+1)*tpp)` and the
remainder after `playerCount*tpp` is the boneyard. No length check is
performed. -/
def dealTiles (tiles : List DominoTile) (playerCount : Nat) :
    List (List DominoTile) × List DominoTile :=
  let tilesPerPlayer := if playerCount == 2 then 7 else 6
  let hands := (List.range playerCount).map (fun i =>
    ((tiles.drop (i * tilesPerPlayer)).take tilesPerPlayer))
  (hands, tiles.drop (playerCount * tilesPerPlayer))

/-- One step of the linear-congruential generator inside
`shuffleArray`: `seedValue = (seedValue * 9301 + 49297) % 233280`. -/
def lcgNext (seedValue : Nat) : Nat := (seedValue * 9301 + 49297) % 233280

/-- Swap of two list positions, the JavaScript destructuring swap
`[a[i], a[j]] = [a[j], a[i]]` (in-range in every reachable call). -/
def listSwap {α : Type} (l : List α) (i j : Nat) : List α :=
  match l.get? i, l.get? j with
  | some a, some b => (l.set i b).set j a
  | _, _ => l

/-- The seeded Fisher–Yates loop of `shuffleArray`, iterating `i` from
`length - 1` down to `1`; each step first advances the generator and
then picks `j = ⌊(seed / 233280) * (i+1)⌋`, which on the exact
rationals the floats approximate is natural-number division
`seed * (i+1) / 233280`. -/
def seededShuffleLoop {α : Type} (l : List α) (i : Nat) (seedValue : Nat) :
    List α :=
  match i with
  | 0 => l
  | k + 1 =>
    let s := lcgNext seedValue
    let j := s * (k + 2) / 233280
    seededShuffleLoop (listSwap l (k + 1) j) k s

/-- The unseeded Fisher–Yates loop of `shuffleArray`; `rand i` stands
for the value `⌊Math.random() * (i+1)⌋` drawn at loop index `i`. -/
def randomShuffleLoop {α : Type} (rand : Nat → Nat) (l : List α) (i : Nat) :
    List α :=
  match i with
  | 0 => l
  | k + 1 => randomShuffleLoop rand (listSwap l (k + 1) (rand (k + 1))) k

/-- The `shuffleArray(array, seed?)`: copies the array and runs the seeded
loop when a seed is given, the `Math.random`-driven loop otherwise.
`rand` is the oracle standing for `Math.random`'s drawn indices. -/
def shuffleArray {α : Type} (rand : Nat → Nat) (array : List α)
    (seed : Option Nat) : List α :=
  match seed with
  | some s => seededShuffleLoop array (array.length - 1) s
  | none => randomShuffleLoop rand array (array.length - 1)

/-! ## Drawing (`src/contexts/GameContext.tsx`) -/

/-- The `drawFromBoneyard()` from the game context, on an explicit state:
no-op unless the status is `playing` and the boneyard is non-empty;
re-finds the current player by id and bails out if the found index is
not the turn pointer; then appends the front boneyard tile to that
player's hand, pops it, and advances `currentPlayerIndex` modulo the
player count. -/
def drawFromBoneyard (s : GameState) : GameState :=
  if s.gameStatus ≠ GameStatus.playing ∨ s.boneyard.isEmpty then s
  else
    let playerId := (currentPlayer s).id
    let playerIndex := s.players.findIdx (fun p => p.id == playerId)
    if playerIndex ≠ s.currentPlayerIndex then s
    else
      let drawnTile := s.boneyard.headD defaultTile
      let updatedPlayers := s.players.set playerIndex
        { s.players.getD playerIndex defaultPlayer with
          hand := (s.players.getD playerIndex defaultPlayer).hand ++ [drawnTile] }
      { s with
        players := updatedPlayers
        boneyard := s.boneyard.tail
        currentPlayerIndex := (s.currentPlayerIndex + 1) % s.players.length }

/-! ## Multiplayer rooms (`src/utils/multiplayerService.ts`) -/

/-- The `RoomPlayer` from `src/types/index.ts`. -/
structure RoomPlayer where
  id : String
  name : String
  avatar : String
  isHost : Bool
  isReady : Bool
  isConnected : Bool
deriving DecidableEq, Repr

/-- The `GameSettings` from `src/types/index.ts` (the AI-difficulty string
is irrelevant to the room operations and omitted). -/
structure GameSettings where
  playerCount : Nat
  targetScore : Int
  hasComputerPlayers : Bool
  computerCount : Nat
deriving DecidableEq, Repr

/-- The `GameRoom` from `src/types/index.ts` (without the optional embedded
`gameState`, which `joinRoom` never touches). -/
structure GameRoom where
  id : String
  hostId : String
  hostName : String
  players : List RoomPlayer
  gameSettings : GameSettings
  status : GameStatus
  createdAt : String
deriving DecidableEq, Repr

/-- The joining `User` (`src/types/index.ts`), restricted to the fields
`joinRoom` reads. -/
structure User where
  id : String
  username : String
  avatar : Option String
deriving DecidableEq, Repr

/-- The `localStorage` contents the room service uses: the per-room
entries `dominos_room_{id}` as an association list keyed by room id,
and the `dominos_active_rooms` list. -/
structure RoomStore where
  roomEntries : List (String × GameRoom)
  activeRooms : List GameRoom
deriving DecidableEq, Repr

/-- The `loadRoomFromStorage(roomId)`: the value stored under the room's
key, if any. -/
def loadRoomFromStorage (store : RoomStore) (roomId : String) :
    Option GameRoom :=
  (store.roomEntries.find? (fun kv => kv.1 == roomId)).map (fun kv => kv.2)

/-- The `getActiveRooms()`. -/
def getActiveRooms (store : RoomStore) : List GameRoom :=
  store.activeRooms

/-- The `localStorage.setItem` on the per-room key: replaces the entry with
that key, or appends a fresh one. -/
def setRoomEntry (entries : List (String × GameRoom)) (key : String)
    (room : GameRoom) : List (String × GameRoom) :=
  if entries.any (fun kv => kv.1 == key) then
    entries.map (fun kv => if kv.1 == key then (key, room) else kv)
  else entries ++ [(key, room)]

/-- The active-rooms update inside `saveRoomToStorage`: replace the
entry at `findIndex(r => r.id === room.id)` when one exists, push
otherwise. -/
def saveActiveRoom (rooms : List GameRoom) (room : GameRoom) :
    List GameRoom :=
  let i := rooms.findIdx (fun r => r.id == room.id)
  if i < rooms.length then rooms.set i room else rooms ++ [room]

/-- The `saveRoomToStorage(room)`: writes the per-room key and updates the
active-rooms list. -/
def saveRoomToStorage (store : RoomStore) (room : GameRoom) : RoomStore :=
  { roomEntries := setRoomEntry store.roomEntries room.id room
    activeRooms := saveActiveRoom store.activeRooms room }

/-- The room `joinRoom` operates on: the per-room entry when present,
otherwise the match in the active-rooms list (`room ||
this.getActiveRooms().find(r => r.id === roomId)`). -/
def lookupRoom (store : RoomStore) (roomId : String) : Option GameRoom :=
  match loadRoomFromStorage store roomId with
  | some r => some r
  | none => (getActiveRooms store).find? (fun r => r.id == roomId)

/-- The `RoomPlayer` record `joinRoom` builds for the joining user. -/
def newRoomPlayer (user : User) : RoomPlayer :=
  { id := user.id
    name := user.username
    avatar := user.avatar.getD "👤"
    isHost := false
    isReady := false
    isConnected := true }

/-- The `joinRoom(roomId, user)`, returning the reply (`GameRoom | null`)
together with the resulting storage. Rejections return `none` before
any write; success appends the new player and persists the room. -/
def joinRoom (store : RoomStore) (roomId : String) (user : User) :
    Option GameRoom × RoomStore :=
  match lookupRoom store roomId with
  | none => (none, store)
  | some targetRoom =>
    if targetRoom.status ≠ GameStatus.waiting then (none, store)
    else if targetRoom.gameSettings.playerCount ≤ targetRoom.players.length then
      (none, store)
    else if targetRoom.players.any (fun p => p.id == user.id) then (none, store)
    else
      let newRoom :=
        { targetRoom with players := targetRoom.players ++ [newRoomPlayer user] }
      (some newRoom, saveRoomToStorage store newRoom)

/-! ## Derived notions used by the statements -/

/-- The placed tile's connecting side equals the open-end value it was
played against (trivial on an empty board, where there is no open
end). -/
def connectsProperly (tile : DominoTile) (board : List DominoTile)
    (position : Position) : Prop :=
  board = [] ∨
    match position with
    | Position.left =>
      (orientTileForPlacement tile board position).rightDots
        = (board.headD defaultTile).leftDots
    | Position.right =>
      (orientTileForPlacement tile board position).leftDots
        = (board.getLastD defaultTile).rightDots

/-- Placement of an (already oriented) tile on a board: prepend for
`'left'`, append for `'right'` — the two branches of `playTile`'s
`newBoard` computation. -/
def placeOnBoard (board : List DominoTile) (t : DominoTile) :
    Position → List DominoTile
  | Position.left => t :: board
  | Position.right => board ++ [t]

/-- The multiset of tile ids present anywhere in a game state: all
hands, the board, and the boneyard. -/
def allTileIds (s : GameState) : Multiset String :=
  (((s.players.map (fun p => p.hand.map DominoTile.id)).flatten
    ++ s.board.map DominoTile.id
    ++ s.boneyard.map DominoTile.id : List String) : Multiset String)

/-! ## Concrete example values (used to instantiate theorems) -/

/-- The 2–5 tile. -/
def tile25 : DominoTile := ⟨"d25", 2, 5, false⟩

/-- The 5–3 tile. -/
def tile53 : DominoTile := ⟨"d53", 5, 3, false⟩

/-- The 6–6 double. -/
def tile66 : DominoTile := ⟨"d66", 6, 6, true⟩

/-- The 1–4 tile. -/
def tile14 : DominoTile := ⟨"d14", 1, 4, false⟩

/-- A mid-round example state: Alice (to move) holds the 5–3 tile,
Bob holds the 1–4 tile, the board holds the single 2–5 tile, and the
boneyard holds the 6–6 double. -/
def exPlayState : GameState :=
  { players :=
      [ ⟨"alice", "Alice", [tile53], 0⟩
      , ⟨"bob", "Bob", [tile14], 0⟩ ]
    currentPlayerIndex := 0
    board := [tile25]
    boneyard := [tile66]
    gameStatus := GameStatus.playing
    targetScore := 300
    round := 1
    winner := none }

/-- A finished-game example: target 300, player A at 310 penalty
points, player B at 290. -/
def exScoreState : GameState :=
  { players :=
      [ ⟨"A", "Player A", [], 310⟩
      , ⟨"B", "Player B", [tile25], 290⟩ ]
    currentPlayerIndex := 0
    board := []
    boneyard := []
    gameStatus := GameStatus.finished
    targetScore := 300
    round := 3
    winner := none }

/-- A waiting two-player room whose host is Carol. -/
def exRoom : GameRoom :=
  { id := "AB12"
    hostId := "carol"
    hostName := "Carol"
    players := [⟨"carol", "Carol", "👤", true, true, true⟩]
    gameSettings := ⟨2, 300, false, 0⟩
    status := GameStatus.waiting
    createdAt := "2024-01-01" }

/-- A store holding only `exRoom`, under its key and in the active
list. -/
def exStore : RoomStore :=
  { roomEntries := [("AB12", exRoom)]
    activeRooms := [exRoom] }

/-- The user Dave, who tries to join `exRoom`. -/
def exUser : User := ⟨"dave", "Dave", none⟩

/-- Fourteen distinct tiles, enough for a two-player deal. -/
def exFourteenTiles : List DominoTile :=
  [ ⟨"t0", 0, 0, true⟩, ⟨"t1", 0, 1, false⟩, ⟨"t2", 0, 2, false⟩
  , ⟨"t3", 0, 3, false⟩, ⟨"t4", 0, 4, false⟩, ⟨"t5", 0, 5, false⟩
  , ⟨"t6", 0, 6, false⟩, ⟨"t7", 1, 1, true⟩, ⟨"t8", 1, 2, false⟩
  , ⟨"t9", 1, 3, false⟩, ⟨"t10", 1, 4, false⟩, ⟨"t11", 1, 5, false⟩
  , ⟨"t12", 1, 6, false⟩, ⟨"t13", 2, 2, true⟩ ]

/-! ## Helper lemmas -/

/-- The `canPlayTile` is the non-emptiness of `getPlayablePositions`
(shared helper; both functions test the same end-matching
conditions). -/
theorem canPlayTile_eq_positions_nonempty (tile : DominoTile)
    (board : List DominoTile) :
    canPlayTile tile board = !(getPlayablePositions tile board).isEmpty := by
  cases board with
  | nil => rfl
  | cons b rest =>
    simp only [canPlayTile, getPlayablePositions, List.isEmpty_cons,
      Bool.false_eq_true, if_false]
    cases h₁ : tile.leftDots == ((b :: rest).headD defaultTile).leftDots <;>
      cases h₂ : tile.rightDots == ((b :: rest).headD defaultTile).leftDots <;>
        cases h₃ : tile.leftDots == ((b :: rest).getLastD defaultTile).rightDots <;>
          cases h₄ : tile.rightDots == ((b :: rest).getLastD defaultTile).rightDots <;>
            simp [h₁, h₂, h₃, h₄]

/-- The hands produced by `dealTiles`-style slicing, concatenated,
give back the first `n * tpp` tiles. -/
theorem flatten_slices {α : Type} (tiles : List α) (tpp : Nat) :
    ∀ n : Nat,
      ((List.range n).map (fun i => ((tiles.drop (i * tpp)).take tpp))).flatten
        = tiles.take (n * tpp) := by
  intro n
  induction n with
  | zero => simp
  | succ k ih =>
    rw [List.range_succ, List.map_append, List.flatten_append, ih]
    simp only [List.map_cons, List.map_nil, List.flatten_cons,
      List.flatten_nil, List.append_nil]
    rw [Nat.succ_mul, List.take_add]

/-- The `minimumScore` is a lower bound on every member's score. -/
theorem minimumScore_le : ∀ (l : List Player), ∀ q ∈ l, minimumScore l ≤ q.score
  | [] => by simp
  | [p] => by
      intro q hq
      rw [List.mem_singleton.mp hq]
      exact le_refl _
  | p :: q :: rest => by
      intro r hr
      rcases List.mem_cons.mp hr with h | h
      · rw [h]
        exact min_le_left _ _
      · exact le_trans (min_le_right p.score (minimumScore (q :: rest)))
          (minimumScore_le (q :: rest) r h)

/-- The `minimumScore` of a non-empty list is attained by some member. -/
theorem minimumScore_attained :
    ∀ (l : List Player), l ≠ [] → ∃ p ∈ l, p.score = minimumScore l
  | [], h => absurd rfl h
  | [p], _ => ⟨p, List.mem_singleton_self p, rfl⟩
  | p :: q :: rest, _ => by
      obtain ⟨m, hm, hms⟩ := minimumScore_attained (q :: rest) (by simp)
      by_cases h : p.score ≤ minimumScore (q :: rest)
      · exact ⟨p, List.mem_cons_self p _, (min_eq_left h).symm⟩
      · refine ⟨m, List.mem_cons_of_mem p hm, ?_⟩
        rw [hms]
        exact (min_eq_right (le_of_not_le h)).symm

/-- The `List.find?` splits the list at the first satisfying element, when
one exists. -/
theorem find?_split {α : Type} (p : α → Bool) :
    ∀ (l : List α) (a : α), a ∈ l → p a = true →
      ∃ w l₁ l₂, l.find? p = some w ∧ p w = true ∧ l = l₁ ++ w :: l₂ ∧
        ∀ q ∈ l₁, p q = false
  | [], a, ha, _ => absurd ha (List.not_mem_nil a)
  | x :: xs, a, ha, hpa => by
      cases hx : p x with
      | true =>
        exact ⟨x, [], xs, List.find?_cons_of_pos xs hx, hx, rfl, by simp⟩
      | false =>
        have ha' : a ∈ xs := by
          rcases List.mem_cons.mp ha with h | h
          · rw [h] at hpa
            rw [hx] at hpa
            cases hpa
          · exact h
        obtain ⟨w, l₁, l₂, hfind, hw, heq, hall⟩ := find?_split p xs a ha' hpa
        refine ⟨w, x :: l₁, l₂, ?_, hw, by rw [heq]; rfl, ?_⟩
        · rw [List.find?_cons_of_neg xs (by simp [hx]), hfind]
        · intro q hq
          rcases List.mem_cons.mp hq with h | h
          · rw [h]; exact hx
          · exact hall q h

/-! ## Claim theorems -/

/-- C6: for every tile `T` and board `B` (including the empty board),
`canPlayTile(T, B)` is true if and only if `getPlayablePositions(T, B)`
is non-empty. -/
theorem canPlayTile_iff_playable_positions (tile : DominoTile)
    (board : List DominoTile) :
    canPlayTile tile board = !(getPlayablePositions tile board).isEmpty :=
  canPlayTile_eq_positions_nonempty tile board

/-- C7: two invocations of `shuffleArray` with the same list and the
same seed produce identical outputs, whatever values the
`Math.random` oracle would have produced in each run: the seeded
shuffle is a deterministic function of the list and the seed. -/
theorem shuffleArray_seeded_deterministic {α : Type}
    (rand₁ rand₂ : Nat → Nat) (array : List α) (seed : Nat) :
    shuffleArray rand₁ array (some seed)
      = shuffleArray rand₂ array (some seed) := rfl

/-- C9 counterexample: on an input with fewer than
`playerCount * tilesPerHand` tiles, `dealTiles` does not fail — it
returns a full list of (deficient) hands and an empty boneyard. -/
theorem dealTiles_no_length_check_counterexample :
    List.length ([] : List DominoTile) < 2 * 7 ∧
      dealTiles [] 2 = ([[], []], []) := by
  exact ⟨by decide, rfl⟩

/-- C9 (amended): `dealTiles` performs no length validation — on any
input it returns exactly `playerCount` hands, hand `i` being the
contiguous slice starting at `i * tilesPerHand` (`tilesPerHand` = 7
for two players, 6 otherwise), with the remainder as boneyard, and
the hands and boneyard together reconstitute the input; when the
input holds at least `playerCount * tilesPerHand` tiles, every hand
has exactly `tilesPerHand` tiles. -/
theorem dealTiles_spec (tiles : List DominoTile) (playerCount : Nat) :
    (dealTiles tiles playerCount).1.length = playerCount ∧
    (∀ i, i < playerCount →
      (dealTiles tiles playerCount).1[i]?
        = some ((tiles.drop (i * (if playerCount == 2 then 7 else 6))).take
            (if playerCount == 2 then 7 else 6))) ∧
    (dealTiles tiles playerCount).2
      = tiles.drop (playerCount * (if playerCount == 2 then 7 else 6)) ∧
    ((dealTiles tiles playerCount).1.flatten ++ (dealTiles tiles playerCount).2
      = tiles) ∧
    (playerCount * (if playerCount == 2 then 7 else 6) ≤ tiles.length →
      ∀ hand ∈ (dealTiles tiles playerCount).1,
        hand.length = (if playerCount == 2 then 7 else 6)) := by
  refine ⟨?_, ?_, rfl, ?_, ?_⟩
  · simp [dealTiles]
  · intro i hi
    show ((List.range playerCount).map
        (fun i => ((tiles.drop (i * (if playerCount == 2 then 7 else 6))).take
          (if playerCount == 2 then 7 else 6))))[i]? = _
    simp only [List.getElem?_map, List.getElem?_range hi, Option.map_some']
  · show ((List.range playerCount).map
        (fun i => ((tiles.drop (i * (if playerCount == 2 then 7 else 6))).take
          (if playerCount == 2 then 7 else 6)))).flatten
      ++ tiles.drop (playerCount * (if playerCount == 2 then 7 else 6)) = tiles
    rw [flatten_slices, List.take_append_drop]
  · intro hlen hand hmem
    simp only [dealTiles, List.mem_map, List.mem_range] at hmem
    obtain ⟨i, hi, rfl⟩ := hmem
    have hmul : (i + 1) * (if playerCount == 2 then 7 else 6)
        ≤ playerCount * (if playerCount == 2 then 7 else 6) :=
      Nat.mul_le_mul_right _ (by omega)
    rw [Nat.succ_mul] at hmul
    simp only [List.length_take, List.length_drop]
    omega

/-- C3: when no player has reached `targetScore`, `getGameWinner`
returns no winner; as soon as some player has, it returns the first
player in player order whose cumulative score is minimal among all
players. -/
theorem getGameWinner_min_score_spec (s : GameState) :
    ((∀ p ∈ s.players, p.score < s.targetScore) → getGameWinner s = none) ∧
    (∀ p₀ ∈ s.players, s.targetScore ≤ p₀.score →
      ∃ w, getGameWinner s = some w ∧ w ∈ s.players ∧
        (∀ q ∈ s.players, w.score ≤ q.score) ∧
        ∃ l₁ l₂, s.players = l₁ ++ w :: l₂ ∧ ∀ q ∈ l₁, w.score < q.score) := by
  constructor
  · intro hall
    have hany : s.players.any (fun p => s.targetScore ≤ p.score) = false := by
      rw [List.any_eq_false]
      intro p hp
      simpa using not_le.mpr (hall p hp)
    simp [getGameWinner, hany]
  · intro p₀ hp₀ htar
    have hany : s.players.any (fun p => s.targetScore ≤ p.score) = true :=
      List.any_eq_true.mpr ⟨p₀, hp₀, by simpa using htar⟩
    have hne : s.players ≠ [] := by
      intro h
      rw [h] at hp₀
      exact List.not_mem_nil p₀ hp₀
    obtain ⟨pm, hpm, hpms⟩ := minimumScore_attained s.players hne
    obtain ⟨w, l₁, l₂, hfind, hw, heq, hfirst⟩ :=
      find?_split (fun p => p.score == minimumScore s.players) s.players pm hpm
        (by simpa using hpms)
    have hws : w.score = minimumScore s.players := by simpa using hw
    refine ⟨w, ?_, ?_, ?_, l₁, l₂, heq, ?_⟩
    · simp [getGameWinner, hany, hfind]
    · rw [heq]
      exact List.mem_append_right l₁ (List.mem_cons_self w l₂)
    · intro q hq
      rw [hws]
      exact minimumScore_le s.players q hq
    · intro q hq
      have h₁ : ¬ q.score = minimumScore s.players := by
        simpa using hfirst q hq
      have h₂ : minimumScore s.players ≤ q.score :=
        minimumScore_le s.players q
          (by rw [heq]; exact List.mem_append_left _ hq)
      rw [hws]
      omega

/-- Witness for C3: in the finished example game (target 300, Player A
at 310, Player B at 290) the game is over and the winner returned is
Player B, the minimum-score player. -/
theorem getGameWinner_min_score_spec_witness :
    (∃ w, getGameWinner exScoreState = some w ∧ w ∈ exScoreState.players ∧
      (∀ q ∈ exScoreState.players, w.score ≤ q.score) ∧
      ∃ l₁ l₂, exScoreState.players = l₁ ++ w :: l₂ ∧
        ∀ q ∈ l₁, w.score < q.score) ∧
    isGameOver exScoreState = true ∧
    getGameWinner exScoreState = some ⟨"B", "Player B", [tile25], 290⟩ :=
  ⟨(getGameWinner_min_score_spec exScoreState).2
      ⟨"A", "Player A", [], 310⟩ (by decide) (by decide),
    by decide, by decide⟩

/-- Witness for C9's amended theorem: dealing fourteen tiles to two
players yields two hands of exactly seven tiles each. -/
theorem dealTiles_spec_witness :
    2 * (if (2 : Nat) == 2 then 7 else 6) ≤ exFourteenTiles.length ∧
    ∀ hand ∈ (dealTiles exFourteenTiles 2).1,
      hand.length = (if (2 : Nat) == 2 then 7 else 6) :=
  ⟨by decide, (dealTiles_spec exFourteenTiles 2).2.2.2.2 (by decide)⟩

/-- C4: `calculateRoundScoring` keeps every player whose id is the
designated winner's unchanged, and sets every other player's score to
its previous value plus the pip sum of that player's remaining hand;
no score ever decreases. -/
theorem calculateRoundScoring_spec (s : GameState) (roundWinner : Player)
    (i : Nat) (p : Player) (hp : s.players[i]? = some p) :
    ∃ q, (calculateRoundScoring s roundWinner)[i]? = some q ∧
      (p.id = roundWinner.id → q = p) ∧
      (p.id ≠ roundWinner.id →
        q.id = p.id ∧ q.name = p.name ∧ q.hand = p.hand ∧
          q.score = p.score + (calculateHandScore p.hand : Int)) ∧
      p.score ≤ q.score := by
  unfold calculateRoundScoring
  rw [List.getElem?_map, hp, Option.map_some']
  by_cases hid : p.id = roundWinner.id
  · exact ⟨p, by simp [hid], fun _ => rfl, fun h => absurd hid h, le_refl _⟩
  · refine ⟨{ p with score := p.score + (calculateHandScore p.hand : Int) },
      by simp [hid], fun h => absurd h hid, fun _ => ⟨rfl, rfl, rfl, rfl⟩, ?_⟩
    have hnn : (0 : Int) ≤ (calculateHandScore p.hand : Int) :=
      Int.ofNat_nonneg _
    show p.score ≤ p.score + (calculateHandScore p.hand : Int)
    omega

/-- Witness for C4: scoring the example finished round with Player A as
winner leaves A at 310 and moves B (holding the 2–5 tile, 7 pips) from
290 to 297. -/
theorem calculateRoundScoring_spec_witness :
    (∃ q, (calculateRoundScoring exScoreState ⟨"A", "Player A", [], 310⟩)[1]?
        = some q ∧
      ((⟨"B", "Player B", [tile25], 290⟩ : Player).id
          = (⟨"A", "Player A", [], 310⟩ : Player).id →
        q = ⟨"B", "Player B", [tile25], 290⟩) ∧
      ((⟨"B", "Player B", [tile25], 290⟩ : Player).id
          ≠ (⟨"A", "Player A", [], 310⟩ : Player).id →
        q.id = "B" ∧ q.name = "Player B" ∧ q.hand = [tile25] ∧
          q.score = 290 + (calculateHandScore [tile25] : Int)) ∧
      (290 : Int) ≤ q.score) ∧
    (calculateRoundScoring exScoreState ⟨"A", "Player A", [], 310⟩)[1]?
      = some ⟨"B", "Player B", [tile25], 297⟩ :=
  ⟨calculateRoundScoring_spec exScoreState ⟨"A", "Player A", [], 310⟩ 1
      ⟨"B", "Player B", [tile25], 290⟩ (by decide),
    by decide⟩

/-- Shared helper: `playTile` is the identity on every rejection
path. -/
theorem playTile_unchanged (s : GameState) (tileId : String)
    (position : Position)
    (h : (∀ t ∈ (currentPlayer s).hand, ¬ t.id = tileId) ∨
      ∃ tile,
        (currentPlayer s).hand.find? (fun t => t.id == tileId) = some tile ∧
          (canPlayTile tile s.board = false ∨
            position ∉ getPlayablePositions tile s.board)) :
    playTile s tileId position = s := by
  unfold playTile
  rcases h with h | ⟨tile, hfind, hrej⟩
  · have hnone : (currentPlayer s).hand.find? (fun t => t.id == tileId) = none := by
      rw [List.find?_eq_none]
      intro t ht
      simpa using h t ht
    rw [hnone]
  · rw [hfind]
    rcases hrej with hcan | hpos
    · simp [hcan]
    · by_cases hc : canPlayTile tile s.board = true
      · simp [hpos, hc]
      · simp [hc]

/-- C5: `playTile` returns the state completely unchanged when the
tile id is absent from the current player's hand, or the found tile
cannot be played, or the requested position is not among its playable
positions. -/
theorem playTile_silent_rejection (s : GameState) (tileId : String)
    (position : Position)
    (hidx : s.currentPlayerIndex < s.players.length)
    (h : (∀ t ∈ (currentPlayer s).hand, ¬ t.id = tileId) ∨
      ∃ tile,
        (currentPlayer s).hand.find? (fun t => t.id == tileId) = some tile ∧
          (canPlayTile tile s.board = false ∨
            position ∉ getPlayablePositions tile s.board)) :
    playTile s tileId position = s := by
  clear hidx
  exact playTile_unchanged s tileId position h

/-- Witness for C5: attempting to play an unowned tile id on the
example mid-round state leaves the state untouched. -/
theorem playTile_silent_rejection_witness :
    playTile exPlayState "unowned" Position.left = exPlayState :=
  playTile_silent_rejection exPlayState "unowned" Position.left (by decide)
    (Or.inl (by decide))

/-- C1 (code bug, evaluated): on the example playing state with a
non-empty boneyard, `drawFromBoneyard` does move exactly the front
boneyard tile into the current player's hand, but it also advances
`currentPlayerIndex` from 0 to 1, so the turn pointer does not stay
unchanged. -/
theorem drawFromBoneyard_advances_turn :
    exPlayState.gameStatus = GameStatus.playing ∧
    exPlayState.boneyard = [tile66] ∧
    exPlayState.currentPlayerIndex = 0 ∧
    (drawFromBoneyard exPlayState).boneyard = [] ∧
    ((drawFromBoneyard exPlayState).players.map Player.hand)
      = [[tile53, tile66], [tile14]] ∧
    (drawFromBoneyard exPlayState).currentPlayerIndex = 1 := by
  decide

/-- Orientation never changes a tile's id. -/
theorem orientTileForPlacement_id (tile : DominoTile)
    (board : List DominoTile) (position : Position) :
    (orientTileForPlacement tile board position).id = tile.id := by
  unfold orientTileForPlacement
  split
  · rfl
  · cases position <;> dsimp only [] <;> split <;> first | rfl | (split <;> rfl)

/-- Orientation keeps the pip pair, possibly swapped. -/
theorem orientTileForPlacement_pips (tile : DominoTile)
    (board : List DominoTile) (position : Position) :
    ((orientTileForPlacement tile board position).leftDots = tile.leftDots ∧
      (orientTileForPlacement tile board position).rightDots = tile.rightDots) ∨
    ((orientTileForPlacement tile board position).leftDots = tile.rightDots ∧
      (orientTileForPlacement tile board position).rightDots = tile.leftDots) := by
  unfold orientTileForPlacement
  split
  · exact Or.inl ⟨rfl, rfl⟩
  · cases position <;> dsimp only [] <;> split
    · exact Or.inl ⟨rfl, rfl⟩
    · split
      · exact Or.inr ⟨rfl, rfl⟩
      · exact Or.inl ⟨rfl, rfl⟩
    · exact Or.inl ⟨rfl, rfl⟩
    · split
      · exact Or.inr ⟨rfl, rfl⟩
      · exact Or.inl ⟨rfl, rfl⟩

/-- When `left` is a playable position on a non-empty board, the
oriented tile's right pips equal the board's left open end. -/
theorem orient_connects_left (tile : DominoTile) (board : List DominoTile)
    (hne : board ≠ [])
    (hmem : Position.left ∈ getPlayablePositions tile board) :
    (orientTileForPlacement tile board Position.left).rightDots
      = (board.headD defaultTile).leftDots := by
  have hb : board.isEmpty = false := by
    cases board with
    | nil => exact absurd rfl hne
    | cons a l => rfl
  have hcond : (tile.leftDots == (board.headD defaultTile).leftDots
      || tile.rightDots == (board.headD defaultTile).leftDots) = true := by
    by_contra hcond
    unfold getPlayablePositions at hmem
    rw [hb] at hmem
    simp only [Bool.false_eq_true, if_false] at hmem
    rw [if_neg hcond, List.nil_append] at hmem
    by_cases h₂ : (tile.leftDots == (board.getLastD defaultTile).rightDots
        || tile.rightDots == (board.getLastD defaultTile).rightDots) = true
    · rw [if_pos h₂] at hmem
      exact Position.noConfusion (List.mem_singleton.mp hmem)
    · rw [if_neg h₂] at hmem
      exact List.not_mem_nil _ hmem
  unfold orientTileForPlacement
  rw [hb]
  simp only [Bool.false_eq_true, if_false]
  by_cases h₂ : tile.rightDots == (board.headD defaultTile).leftDots
  · rw [if_pos h₂]
    exact beq_iff_eq.mp h₂
  · rw [if_neg h₂]
    have h₁ : tile.leftDots == (board.headD defaultTile).leftDots := by
      rcases Bool.or_eq_true_iff.mp hcond with h | h
      · exact h
      · exact absurd h h₂
    rw [if_pos h₁]
    show tile.leftDots = (board.headD defaultTile).leftDots
    exact beq_iff_eq.mp h₁

/-- When `right` is a playable position on a non-empty board, the
oriented tile's left pips equal the board's right open end. -/
theorem orient_connects_right (tile : DominoTile) (board : List DominoTile)
    (hne : board ≠ [])
    (hmem : Position.right ∈ getPlayablePositions tile board) :
    (orientTileForPlacement tile board Position.right).leftDots
      = (board.getLastD defaultTile).rightDots := by
  have hb : board.isEmpty = false := by
    cases board with
    | nil => exact absurd rfl hne
    | cons a l => rfl
  have hcond : (tile.leftDots == (board.getLastD defaultTile).rightDots
      || tile.rightDots == (board.getLastD defaultTile).rightDots) = true := by
    by_contra hcond
    unfold getPlayablePositions at hmem
    rw [hb] at hmem
    simp only [Bool.false_eq_true, if_false] at hmem
    rw [if_neg hcond, List.append_nil] at hmem
    by_cases h₂ : (tile.leftDots == (board.headD defaultTile).leftDots
        || tile.rightDots == (board.headD defaultTile).leftDots) = true
    · rw [if_pos h₂] at hmem
      exact Position.noConfusion (List.mem_singleton.mp hmem)
    · rw [if_neg h₂] at hmem
      exact List.not_mem_nil _ hmem
  unfold orientTileForPlacement
  rw [hb]
  simp only [Bool.false_eq_true, if_false]
  by_cases h₂ : tile.leftDots == (board.getLastD defaultTile).rightDots
  · rw [if_pos h₂]
    exact beq_iff_eq.mp h₂
  · rw [if_neg h₂]
    have h₁ : tile.rightDots == (board.getLastD defaultTile).rightDots := by
      rcases Bool.or_eq_true_iff.mp hcond with h | h
      · exact absurd h h₂
      · exact h
    rw [if_pos h₁]
    show tile.rightDots = (board.getLastD defaultTile).rightDots
    exact beq_iff_eq.mp h₁

/-- The `chainConnected` unfolded at a cons. -/
theorem chainConnected_cons (t : DominoTile) (l : List DominoTile) :
    chainConnected (t :: l)
      = ((l.isEmpty || (t.rightDots == (l.headD defaultTile).leftDots))
          && chainConnected l) := by
  cases l with
  | nil => rfl
  | cons b rest => simp [chainConnected]

/-- The `getLastD` ignores a front element when two more remain. -/
theorem getLastD_cons_cons (a b d : DominoTile) (l : List DominoTile) :
    (a :: b :: l).getLastD d = (b :: l).getLastD d := by
  simp [List.getLastD_eq_getLast?, List.getLast?_cons_cons]

/-- The `chainConnected` unfolded at an appended last element. -/
theorem chainConnected_append_singleton (l : List DominoTile)
    (t : DominoTile) :
    chainConnected (l ++ [t])
      = (chainConnected l
          && (l.isEmpty || ((l.getLastD defaultTile).rightDots == t.leftDots))) := by
  induction l with
  | nil => simp [chainConnected]
  | cons a rest ih =>
    cases rest with
    | nil => simp [chainConnected]
    | cons b rest₂ =>
      rw [List.cons_append]
      rw [show chainConnected (a :: (b :: rest₂ ++ [t]))
          = ((a.rightDots == b.leftDots) && chainConnected (b :: rest₂ ++ [t]))
        from rfl]
      rw [show chainConnected (a :: b :: rest₂)
          = ((a.rightDots == b.leftDots) && chainConnected (b :: rest₂)) from rfl]
      rw [show (b :: rest₂ ++ [t]) = ((b :: rest₂) ++ [t]) from rfl, ih]
      rw [getLastD_cons_cons a b defaultTile rest₂]
      simp [Bool.and_assoc]

/-- The shape of `playTile` on the success path. -/
theorem playTile_success (s : GameState) (tileId : String)
    (position : Position) (tile : DominoTile)
    (hfind : (currentPlayer s).hand.find? (fun t => t.id == tileId) = some tile)
    (hcan : canPlayTile tile s.board = true)
    (hpos : position ∈ getPlayablePositions tile s.board) :
    playTile s tileId position =
      { s with
        players := s.players.mapIdx (fun i p =>
          if i = s.currentPlayerIndex then
            { p with
              hand := (currentPlayer s).hand.filter (fun t => ¬ t.id == tileId) }
          else p)
        board := placeOnBoard s.board
          (orientTileForPlacement tile s.board position) position
        currentPlayerIndex := (s.currentPlayerIndex + 1) % s.players.length } := by
  unfold playTile
  rw [hfind]
  simp only [if_neg (not_not_intro hcan), if_neg (not_not_intro hpos)]
  cases position <;> rfl

/-- Playable positions always yield `canPlayTile` (membership form of
the shared helper). -/
theorem canPlayTile_of_mem_positions (tile : DominoTile)
    (board : List DominoTile) (position : Position)
    (hpos : position ∈ getPlayablePositions tile board) :
    canPlayTile tile board = true := by
  rw [canPlayTile_eq_positions_nonempty]
  cases hp : getPlayablePositions tile board with
  | nil => rw [hp] at hpos; exact absurd hpos (List.not_mem_nil _)
  | cons a l => rfl

/-- C2: playing a tile found in the current player's hand at any of its
playable positions keeps the board chain-connected (every adjacent pair
of placed tiles touches with equal pip values), and the oriented tile's
connecting side equals the previous open-end value. -/
theorem playTile_preserves_chain_invariant (s : GameState) (tileId : String)
    (position : Position) (tile : DominoTile)
    (hfind : (currentPlayer s).hand.find? (fun t => t.id == tileId) = some tile)
    (hpos : position ∈ getPlayablePositions tile s.board)
    (hchain : chainConnected s.board = true) :
    chainConnected (playTile s tileId position).board = true ∧
      connectsProperly tile s.board position := by
  have hcan : canPlayTile tile s.board = true :=
    canPlayTile_of_mem_positions tile s.board position hpos
  have hboard : (playTile s tileId position).board
      = placeOnBoard s.board
          (orientTileForPlacement tile s.board position) position := by
    rw [playTile_success s tileId position tile hfind hcan hpos]
  rw [hboard]
  cases hbd : s.board with
  | nil =>
    have hposl : position = Position.left := by
      rw [hbd] at hpos
      have hpos' : position ∈ [Position.left] := hpos
      exact List.mem_singleton.mp hpos'
    subst hposl
    exact ⟨rfl, Or.inl rfl⟩
  | cons b rest =>
    have hne : (b :: rest : List DominoTile) ≠ [] := List.cons_ne_nil b rest
    rw [hbd] at hpos hchain
    cases position with
    | left =>
      have hconn := orient_connects_left tile (b :: rest) hne hpos
      constructor
      · show chainConnected
          (orientTileForPlacement tile (b :: rest) Position.left :: b :: rest)
            = true
        rw [chainConnected_cons, hchain, Bool.and_true]
        simp [hconn]
      · exact Or.inr hconn
    | right =>
      have hconn := orient_connects_right tile (b :: rest) hne hpos
      constructor
      · show chainConnected
          ((b :: rest) ++
            [orientTileForPlacement tile (b :: rest) Position.right]) = true
        rw [chainConnected_append_singleton, hchain, Bool.true_and]
        simp [hconn]
      · exact Or.inr hconn

/-- Witness for C2: playing Alice's 5–3 tile at `right` against the
board `[2–5]` keeps the chain connected, and the placed tile's left
side carries the open-end value 5. -/
theorem playTile_preserves_chain_invariant_witness :
    chainConnected (playTile exPlayState "d53" Position.right).board = true ∧
      connectsProperly tile53 exPlayState.board Position.right :=
  playTile_preserves_chain_invariant exPlayState "d53" Position.right tile53
    (by decide) (by decide) (by decide)

/-- After replacing every entry under `key`, `find?` on that key yields
the replacement. -/
theorem find?_replaceEntry (key : String) (room : GameRoom) :
    ∀ entries : List (String × GameRoom),
      entries.any (fun kv => kv.1 == key) = true →
      (entries.map (fun kv => if kv.1 == key then (key, room) else kv)).find?
          (fun kv => kv.1 == key) = some (key, room)
  | [], h => by cases h
  | e :: es, h => by
      by_cases he : (e.1 == key) = true
      · rw [List.map_cons, if_pos he]
        exact List.find?_cons_of_pos _ (by simp)
      · rw [List.map_cons, if_neg he]
        rw [List.find?_cons_of_neg _ (by simpa using he)]
        refine find?_replaceEntry key room es ?_
        rw [List.any_cons] at h
        rcases Bool.or_eq_true_iff.mp h with h' | h'
        · exact absurd h' he
        · exact h'

/-- When no entry has `key`, `find?` after appending `(key, room)`
yields the appended entry. -/
theorem find?_appendEntry (key : String) (room : GameRoom) :
    ∀ entries : List (String × GameRoom),
      entries.any (fun kv => kv.1 == key) = false →
      (entries ++ [(key, room)]).find? (fun kv => kv.1 == key)
        = some (key, room)
  | [], _ => by
      rw [List.nil_append]
      exact List.find?_cons_of_pos _ (by simp)
  | e :: es, h => by
      rw [List.any_cons, Bool.or_eq_false_iff] at h
      rw [List.cons_append, List.find?_cons_of_neg _ (by simp [h.1])]
      exact find?_appendEntry key room es h.2

/-- Saving a room and loading it back under its id round-trips. -/
theorem loadRoom_saveRoom (store : RoomStore) (room : GameRoom) :
    loadRoomFromStorage (saveRoomToStorage store room) room.id = some room := by
  unfold loadRoomFromStorage saveRoomToStorage setRoomEntry
  by_cases h : store.roomEntries.any (fun kv => kv.1 == room.id) = true
  · rw [if_pos h, find?_replaceEntry room.id room store.roomEntries h]
    rfl
  · rw [if_neg h,
      find?_appendEntry room.id room store.roomEntries
        (Bool.eq_false_iff.mpr h)]
    rfl

/-- C8: `joinRoom` rejects — replying `null` and leaving the store
untouched — when the room cannot be found, its status is not
`waiting`, its roster already has `playerCount` players, or the user
is already on the roster; otherwise it appends exactly one new
`RoomPlayer` (not host, not ready) and persists the updated room under
its id. -/
theorem joinRoom_spec (store : RoomStore) (roomId : String) (user : User) :
    (lookupRoom store roomId = none →
      joinRoom store roomId user = (none, store)) ∧
    (∀ room, lookupRoom store roomId = some room →
      (room.status ≠ GameStatus.waiting →
        joinRoom store roomId user = (none, store)) ∧
      (room.gameSettings.playerCount ≤ room.players.length →
        joinRoom store roomId user = (none, store)) ∧
      ((∃ p ∈ room.players, p.id = user.id) →
        joinRoom store roomId user = (none, store)) ∧
      (room.status = GameStatus.waiting →
        room.players.length < room.gameSettings.playerCount →
        (∀ p ∈ room.players, p.id ≠ user.id) →
        joinRoom store roomId user =
          (some { room with players := room.players ++ [newRoomPlayer user] },
            saveRoomToStorage store
              { room with players := room.players ++ [newRoomPlayer user] }) ∧
        (newRoomPlayer user).isHost = false ∧
        (newRoomPlayer user).isReady = false ∧
        loadRoomFromStorage (joinRoom store roomId user).2 room.id
          = some
            { room with players := room.players ++ [newRoomPlayer user] })) := by
  constructor
  · intro hnone
    unfold joinRoom
    rw [hnone]
  · intro room hsome
    have hjoin : joinRoom store roomId user =
        (if room.status ≠ GameStatus.waiting then (none, store)
        else if room.gameSettings.playerCount ≤ room.players.length then
          (none, store)
        else if room.players.any (fun p => p.id == user.id) then (none, store)
        else
          (some { room with players := room.players ++ [newRoomPlayer user] },
            saveRoomToStorage store
              { room with
                players := room.players ++ [newRoomPlayer user] })) := by
      unfold joinRoom
      rw [hsome]
    refine ⟨?_, ?_, ?_, ?_⟩
    · intro hst
      rw [hjoin, if_pos hst]
    · intro hfull
      rw [hjoin]
      by_cases hst : room.status ≠ GameStatus.waiting
      · rw [if_pos hst]
      · rw [if_neg hst, if_pos hfull]
    · intro hpresent
      rw [hjoin]
      by_cases hst : room.status ≠ GameStatus.waiting
      · rw [if_pos hst]
      · rw [if_neg hst]
        by_cases hfull : room.gameSettings.playerCount ≤ room.players.length
        · rw [if_pos hfull]
        · rw [if_neg hfull]
          have hany : room.players.any (fun p => p.id == user.id) = true := by
            obtain ⟨p, hp, hpid⟩ := hpresent
            exact List.any_eq_true.mpr ⟨p, hp, by simpa using hpid⟩
          rw [if_pos hany]
    · intro hst hroom hfree
      have hany : room.players.any (fun p => p.id == user.id) = false := by
        rw [List.any_eq_false]
        intro p hp
        simpa using hfree p hp
      have heq : joinRoom store roomId user =
          (some { room with players := room.players ++ [newRoomPlayer user] },
            saveRoomToStorage store
              { room with
                players := room.players ++ [newRoomPlayer user] }) := by
        rw [hjoin, if_neg (not_not_intro hst), if_neg (not_le.mpr hroom),
          if_neg (by simp [hany])]
      refine ⟨heq, rfl, rfl, ?_⟩
      rw [heq]
      exact loadRoom_saveRoom store
        { room with players := room.players ++ [newRoomPlayer user] }

/-- Witness for C8: Dave joins Carol's waiting two-player room; the
reply and the persisted record both hold the roster extended by the
non-host, non-ready Dave entry. -/
theorem joinRoom_spec_witness :
    joinRoom exStore "AB12" exUser =
      (some { exRoom with players := exRoom.players ++ [newRoomPlayer exUser] },
        saveRoomToStorage exStore
          { exRoom with
            players := exRoom.players ++ [newRoomPlayer exUser] }) ∧
    (newRoomPlayer exUser).isHost = false ∧
    (newRoomPlayer exUser).isReady = false ∧
    loadRoomFromStorage (joinRoom exStore "AB12" exUser).2 exRoom.id
      = some
        { exRoom with players := exRoom.players ++ [newRoomPlayer exUser] } :=
  ((joinRoom_spec exStore "AB12" exUser).2 exRoom (by decide)).2.2.2
    (by decide) (by decide) (by decide)

/-- The `mapIdx` with the identity function. -/
theorem mapIdx_id_fun {α : Type} : ∀ l : List α, l.mapIdx (fun _ p => p) = l
  | [] => rfl
  | x :: xs => by
      rw [List.mapIdx_cons]
      exact congrArg (List.cons x) (mapIdx_id_fun xs)

/-- The `mapIdx` applying `g` at exactly one index is `set`. -/
theorem mapIdx_point_update {α : Type} (g : α → α) :
    ∀ (l : List α) (k : Nat) (a : α), l[k]? = some a →
      l.mapIdx (fun i p => if i = k then g p else p) = l.set k (g a)
  | [], _, _, h => by cases h
  | x :: xs, 0, a, h => by
      rw [List.getElem?_cons_zero, Option.some.injEq] at h
      subst h
      rw [List.mapIdx_cons, if_pos rfl, List.set_cons_zero]
      have hfun : (fun i (p : α) => if i + 1 = 0 then g p else p)
          = fun _ p => p := by
        funext i p
        rw [if_neg (Nat.succ_ne_zero i)]
      rw [hfun, mapIdx_id_fun]
  | x :: xs, k + 1, a, h => by
      rw [List.getElem?_cons_succ] at h
      rw [List.mapIdx_cons, if_neg (by omega : ¬ (0 : Nat) = k + 1),
        List.set_cons_succ]
      have hfun : (fun i (p : α) => if i + 1 = k + 1 then g p else p)
          = fun i p => if i = k then g p else p := by
        funext i p
        by_cases hik : i = k
        · rw [if_pos (by omega), if_pos hik]
        · rw [if_neg (by omega), if_neg hik]
      rw [hfun]
      exact congrArg (List.cons x) (mapIdx_point_update g xs k a h)

/-- On a valid turn index, `currentPlayer` is the stored entry. -/
theorem currentPlayer_getElem? (s : GameState)
    (hidx : s.currentPlayerIndex < s.players.length) :
    s.players[s.currentPlayerIndex]? = some (currentPlayer s) := by
  unfold currentPlayer
  rw [List.getD_eq_getElem?_getD, List.getElem?_eq_getElem hidx]
  rfl

/-- Decomposition of the player list around the current player. -/
theorem players_decomp (s : GameState)
    (hidx : s.currentPlayerIndex < s.players.length) :
    s.players = s.players.take s.currentPlayerIndex
      ++ currentPlayer s :: s.players.drop (s.currentPlayerIndex + 1) := by
  have h₁ : currentPlayer s = s.players[s.currentPlayerIndex] := by
    unfold currentPlayer
    rw [List.getD_eq_getElem?_getD, List.getElem?_eq_getElem hidx]
    rfl
  rw [h₁, List.getElem_cons_drop s.players s.currentPlayerIndex hidx,
    List.take_append_drop]

/-- Removing a tile id from a duplicate-free hand drops exactly the
found tile. -/
theorem filter_remove_found (tileId : String) (tile : DominoTile)
    (l₁ l₂ : List DominoTile)
    (hfirst : ∀ q ∈ l₁, (q.id == tileId) = false)
    (htid : tile.id = tileId)
    (hnodup : (((l₁ ++ tile :: l₂).map DominoTile.id)).Nodup) :
    (l₁ ++ tile :: l₂).filter (fun t => ¬ t.id == tileId) = l₁ ++ l₂ := by
  rw [List.map_append, List.map_cons] at hnodup
  have hnotin : tile.id ∉ l₂.map DominoTile.id :=
    (List.nodup_cons.mp (List.nodup_append.mp hnodup).2.1).1
  have h₁ : l₁.filter (fun t => ¬ t.id == tileId) = l₁ :=
    List.filter_eq_self.mpr (fun q hq => by simp [hfirst q hq])
  have h₂ : l₂.filter (fun t => ¬ t.id == tileId) = l₂ :=
    List.filter_eq_self.mpr (fun q hq => by
      have hne : ¬ q.id = tileId := by
        intro hqid
        exact hnotin
          (List.mem_map.mpr ⟨q, hq, by rw [hqid, htid]⟩)
      simp [hne])
  rw [List.filter_append, h₁, List.filter_cons,
    if_neg (by simp [htid]), h₂]

/-- C10: `playTile` preserves the multiset of tile ids across hands,
board, and boneyard; on the success path it removes exactly the found
tile from the current player's hand, adds a tile with the same id (and
the same, possibly swapped, pip pair) to the matching end of the
board, and leaves the boneyard and every other player untouched. -/
theorem playTile_conservation (s : GameState) (tileId : String)
    (position : Position)
    (hidx : s.currentPlayerIndex < s.players.length)
    (hnodup : ((currentPlayer s).hand.map DominoTile.id).Nodup) :
    allTileIds (playTile s tileId position) = allTileIds s ∧
    (∀ tile,
      (currentPlayer s).hand.find? (fun t => t.id == tileId) = some tile →
      canPlayTile tile s.board = true →
      position ∈ getPlayablePositions tile s.board →
      (playTile s tileId position).boneyard = s.boneyard ∧
      (∀ j, j ≠ s.currentPlayerIndex →
        (playTile s tileId position).players[j]? = s.players[j]?) ∧
      (∃ l₁ l₂, (currentPlayer s).hand = l₁ ++ tile :: l₂ ∧
        ((playTile s tileId position).players[s.currentPlayerIndex]?).map
            Player.hand = some (l₁ ++ l₂)) ∧
      (∃ ot,
        ((playTile s tileId position).board = ot :: s.board ∨
          (playTile s tileId position).board = s.board ++ [ot]) ∧
        ot.id = tile.id ∧
        ((ot.leftDots = tile.leftDots ∧ ot.rightDots = tile.rightDots) ∨
          (ot.leftDots = tile.rightDots ∧ ot.rightDots = tile.leftDots)))) := by
  cases hfind₀ : (currentPlayer s).hand.find? (fun t => t.id == tileId) with
  | none =>
    have hunch : playTile s tileId position = s :=
      playTile_unchanged s tileId position
        (Or.inl (fun t ht hid => by
          have := List.find?_eq_none.mp hfind₀ t ht
          simp [hid] at this))
    exact ⟨by rw [hunch], fun tile hf => Option.noConfusion hf⟩
  | some w =>
    by_cases hcan₀ : canPlayTile w s.board = true
    · by_cases hpos₀ : position ∈ getPlayablePositions w s.board
      · -- success path
        have hsucc := playTile_success s tileId position w hfind₀ hcan₀ hpos₀
        have htid : w.id = tileId := by
          simpa using List.find?_some hfind₀
        have hmem : w ∈ (currentPlayer s).hand :=
          List.mem_of_find?_eq_some hfind₀
        obtain ⟨v, l₁, l₂, hfindv, hv, heq, hfirst⟩ :=
          find?_split (fun t => t.id == tileId) (currentPlayer s).hand w
            hmem (by simpa using htid)
        have hvw : w = v := by
          rw [hfind₀] at hfindv
          exact (Option.some.injEq _ _).mp hfindv
        subst hvw
        have hfilter : (currentPlayer s).hand.filter
            (fun t => ¬ t.id == tileId) = l₁ ++ l₂ := by
          rw [heq]
          exact filter_remove_found tileId w l₁ l₂
            (fun q hq => hfirst q hq) htid
            (by rw [← heq]; exact hnodup)
        have hplayers : (playTile s tileId position).players
            = s.players.set s.currentPlayerIndex
                { currentPlayer s with
                  hand := (currentPlayer s).hand.filter
                    (fun t => ¬ t.id == tileId) } := by
          rw [hsucc]
          exact mapIdx_point_update
            (fun p => { p with
              hand := (currentPlayer s).hand.filter
                (fun t => ¬ t.id == tileId) })
            s.players s.currentPlayerIndex (currentPlayer s)
            (currentPlayer_getElem? s hidx)
        have hboard : (playTile s tileId position).board
            = placeOnBoard s.board
                (orientTileForPlacement w s.board position) position := by
          rw [hsucc]
        have hbone : (playTile s tileId position).boneyard = s.boneyard := by
          rw [hsucc]
        constructor
        · -- multiset preservation
          unfold allTileIds
          rw [Multiset.coe_eq_coe]
          apply List.perm_iff_count.mpr
          intro x
          rw [hplayers, List.set_eq_take_cons_drop _ hidx, hfilter, hboard,
            hbone]
          conv_rhs => rw [players_decomp s hidx]
          have hotid : (orientTileForPlacement w s.board position).id
              = w.id := orientTileForPlacement_id w s.board position
          simp only [List.map_append, List.map_cons, List.flatten_append,
            List.flatten_cons, List.count_append]
          rw [heq]
          cases position <;>
            simp only [placeOnBoard, List.map_append, List.map_cons,
              List.map_nil, List.flatten_append, List.flatten_cons,
              List.flatten_nil, List.count_append, List.count_cons,
              List.count_nil, hotid] <;>
            omega
        · intro tile hf hcan hpos
          obtain rfl : tile = w := ((Option.some.injEq _ _).mp hf).symm
          refine ⟨hbone, ?_, ?_, ?_⟩
          · intro j hj
            rw [hplayers, List.getElem?_set_ne (fun h => hj h.symm)]
          · refine ⟨l₁, l₂, heq, ?_⟩
            rw [hplayers,
              List.getElem?_set_eq_of_lt _ hidx, Option.map_some']
            show some ((currentPlayer s).hand.filter
              (fun t => ¬ t.id == tileId)) = some (l₁ ++ l₂)
            rw [hfilter]
          · refine ⟨orientTileForPlacement tile s.board position, ?_,
              orientTileForPlacement_id tile s.board position,
              orientTileForPlacement_pips tile s.board position⟩
            rw [hboard]
            cases position with
            | left => exact Or.inl rfl
            | right => exact Or.inr rfl
      · -- rejected: position not playable
        have hunch : playTile s tileId position = s :=
          playTile_unchanged s tileId position
            (Or.inr ⟨w, hfind₀, Or.inr hpos₀⟩)
        refine ⟨by rw [hunch], fun tile hf hcan hpos => ?_⟩
        obtain rfl : tile = w := ((Option.some.injEq _ _).mp hf).symm
        exact absurd hpos hpos₀
    · -- rejected: tile cannot be played
      have hunch : playTile s tileId position = s :=
        playTile_unchanged s tileId position
          (Or.inr ⟨w, hfind₀, Or.inl (Bool.eq_false_iff.mpr hcan₀)⟩)
      refine ⟨by rw [hunch], fun tile hf hcan hpos => ?_⟩
      obtain rfl : tile = w := ((Option.some.injEq _ _).mp hf).symm
      exact absurd hcan hcan₀

/-- Witness for C10: playing Alice's 5–3 tile at `right` preserves the
global id multiset and effects exactly the hand-to-board move. -/
theorem playTile_conservation_witness :
    allTileIds (playTile exPlayState "d53" Position.right)
        = allTileIds exPlayState ∧
    (playTile exPlayState "d53" Position.right).boneyard
        = exPlayState.boneyard :=
  ⟨(playTile_conservation exPlayState "d53" Position.right (by decide)
      (by decide)).1,
    ((playTile_conservation exPlayState "d53" Position.right (by decide)
      (by decide)).2 tile53 (by decide) (by decide) (by decide)).1⟩

end Dominos
